import Mathlib

/-!
# Verification of the rng_cli_linux hardware-acquisition layer

Shallow embedding of the Go sources of `Thiagojm/rng_cli_linux`:

* `truerng` (serial TrueRNG transport): device identification, one-shot and
  interval bit collection, partial-byte masking;
* `bbusb` (BitBabbler FTDI/MPSSE transport): open/sync/close, framed bulk
  reads that strip FTDI status headers.

Conventions: Go bytes are `Nat` (byte casts are `% 256`), Go slices are
`List Nat`, blocking I/O is driven by explicit environment scripts (one list
entry per OS read call), and deadlines/cancellation are environment events.
Go machine-integer arithmetic is made explicit with `% 2 ^ 64` / `% 2 ^ 16`
where the code relies on it.
-/

namespace RngCli

/-- I/O events a run of an embedded operation emits, used to state that
invalid arguments produce no I/O and to observe reconnect behaviour. -/
inductive IoEv where
  | findPort
  | openPort
  | readPhase
  | closePort
  | deliver (bs : List Nat)
  | writeCmd (bs : List Nat)
  deriving DecidableEq

namespace TrueRng

/-- Environment for a single open-read-close cycle on the serial port:
result of `FindPort`, whether `serial.Open` succeeds, and the outcome of each
`port.Read` call (`none` models an OS-level read error; an exhausted list
models the absolute deadline elapsing with no further data). -/
structure SerialEnv where
  findPort : Option String
  openOk : Bool
  reads : List (Option (List Nat))

/-- Result of the blocking read loop in `readBytesFromPort`. -/
inductive ReadRes where
  | ok (data : List Nat)
  | timeout (got want : Nat)
  | readErr
  deriving DecidableEq

/-- The loop `for total < blockSize { ... port.Read(buf[total:]) ... }` of
`readBytesFromPort` (src/unnamed/part_000, lines 202-214).  Each script entry
is one `port.Read`; at most `blockSize - total` bytes of it land in the
buffer; a zero-byte read just retries. -/
def readLoop (blockSize : Nat) : List (Option (List Nat)) → Nat → List Nat → ReadRes
  | [], got, acc => if got < blockSize then .timeout got blockSize else .ok acc
  | r :: rest, got, acc =>
    if got < blockSize then
      match r with
      | none => .readErr
      | some bs =>
        let n := min bs.length (blockSize - got)
        readLoop blockSize rest (got + n) (acc ++ bs.take n)
    else .ok acc

/-- All bytes the device offers, in order: concatenation of the read script. -/
def deviceBytes (reads : List (Option (List Nat))) : List Nat :=
  (reads.map (fun r => r.getD [])).flatten

/-- `readBytesFromPort` (src/unnamed/part_000, lines 172-216): open the port
with the default serial mode, set DTR, flush input, then run the read loop. -/
def readBytesFromPort (env : SerialEnv) (blockSize : Nat) :
    Except String (List Nat) × List IoEv :=
  if env.openOk then
    match readLoop blockSize env.reads 0 [] with
    | .ok data => (.ok data, [.openPort, .readPhase, .closePort])
    | .timeout _ _ => (.error "read timeout after 10s", [.openPort, .readPhase, .closePort])
    | .readErr => (.error "read error", [.openPort, .readPhase, .closePort])
  else (.error "open failed", [.openPort])

/-- `ReadBytesWithMode` (src/unnamed/part_000, lines 158-169): validate
`blockSize`, find the device port, then read. -/
def ReadBytesWithMode (blockSize : Int) (env : SerialEnv) :
    Except String (List Nat) × List IoEv :=
  if blockSize ≤ 0 then (.error "blockSize must be positive", [])
  else
    match env.findPort with
    | none => (.error "TrueRNG device not found", [.findPort])
    | some _ =>
      let r := readBytesFromPort env blockSize.toNat
      (r.1, .findPort :: r.2)

/-- `extraBits := (8 - (bitCount % 8)) % 8` (src/unnamed/part_000, line 235). -/
def extraBits (bitCount : Nat) : Nat := (8 - bitCount % 8) % 8

/-- `mask := byte(0xFF << extraBits)` (src/unnamed/part_000, line 237). -/
def maskByte (e : Nat) : Nat := (255 <<< e) % 256

/-- The trailing-bit zeroing `data[len(data)-1] &= mask` applied when
`extraBits != 0` (src/unnamed/part_000, lines 234-239). -/
def maskTrailing (bitCount : Nat) (data : List Nat) : List Nat :=
  if extraBits bitCount = 0 then data
  else data.dropLast ++ [data.getLastD 0 &&& maskByte (extraBits bitCount)]

/-- `ReadBitsWithMode` (src/unnamed/part_000, lines 225-241): validate
`bitCount`, read `ceil(bitCount/8)` bytes, zero unused trailing bits. -/
def ReadBitsWithMode (bitCount : Int) (env : SerialEnv) :
    Except String (List Nat) × List IoEv :=
  if bitCount ≤ 0 then (.error "bitCount must be positive", [])
  else
    let byteCount : Int := (bitCount + 7) / 8
    let r := ReadBytesWithMode byteCount env
    (r.1.map (maskTrailing bitCount.toNat), r.2)

lemma readLoop_ok (blockSize : Nat) :
    ∀ (reads : List (Option (List Nat))) (got : Nat) (acc : List Nat),
      (∀ r ∈ reads, r.isSome) →
      got ≤ blockSize →
      blockSize ≤ got + (deviceBytes reads).length →
      readLoop blockSize reads got acc =
        .ok (acc ++ (deviceBytes reads).take (blockSize - got)) := by
  intro reads
  induction reads with
  | nil =>
    intro got acc _ hle henough
    simp [deviceBytes] at henough
    have : got = blockSize := le_antisymm hle henough
    simp [readLoop, this]
  | cons r rest ih =>
    intro got acc hsome hle henough
    have hr : r.isSome := hsome r (by simp)
    obtain ⟨bs, rfl⟩ := Option.isSome_iff_exists.mp hr
    have hdev : deviceBytes (some bs :: rest) = bs ++ deviceBytes rest := by
      simp [deviceBytes]
    by_cases hlt : got < blockSize
    · rw [readLoop]
      simp only [hlt, if_true]
      have hmin1 : min bs.length (blockSize - got) ≤ blockSize - got :=
        Nat.min_le_right _ _
      have hmin2 : min bs.length (blockSize - got) ≤ bs.length :=
        Nat.min_le_left _ _
      have hmin3 : min bs.length (blockSize - got) = bs.length ∨
          min bs.length (blockSize - got) = blockSize - got :=
        min_choice _ _
      rw [hdev] at henough
      simp only [List.length_append] at henough
      have hrec := ih (got + min bs.length (blockSize - got))
        (acc ++ bs.take (min bs.length (blockSize - got)))
        (fun x hx => hsome x (by simp [hx]))
        (by omega)
        (by rcases hmin3 with h | h <;> rw [h] <;> omega)
      rw [hrec, hdev]
      rw [List.take_append_eq_append_take]
      have h1 : bs.take (blockSize - got) = bs.take (min bs.length (blockSize - got)) := by
        rcases Nat.le_total bs.length (blockSize - got) with h | h
        · rw [Nat.min_eq_left h, List.take_of_length_le h, List.take_length]
        · rw [Nat.min_eq_right h]
      rw [h1, List.append_assoc]
      have harith : blockSize - got - bs.length =
          blockSize - (got + min bs.length (blockSize - got)) := by
        rcases Nat.le_total bs.length (blockSize - got) with hm | hm
        · rw [Nat.min_eq_left hm]
          omega
        · rw [Nat.min_eq_right hm]
          omega
      rw [harith]
    · have : got = blockSize := by omega
      rw [readLoop]
      simp [hlt, this]

lemma extraBits_lt (bitCount : Nat) : extraBits bitCount < 8 := by
  simp only [extraBits]
  omega

lemma eq_zero_mod_two_pow_of_testBit {x e : Nat}
    (h : ∀ i < e, x.testBit i = false) : x % 2 ^ e = 0 := by
  apply Nat.eq_of_testBit_eq
  intro i
  rw [Nat.testBit_mod_two_pow, Nat.zero_testBit]
  by_cases hie : i < e
  · simp [hie, h i hie]
  · simp [hie]

lemma maskByte_testBit : ∀ e < 8, ∀ i < e, (maskByte e).testBit i = false := by
  decide

lemma land_maskByte_mod (e : Nat) (he : e < 8) (d : Nat) :
    (d &&& maskByte e) % 2 ^ e = 0 := by
  apply eq_zero_mod_two_pow_of_testBit
  intro i hi
  rw [Nat.testBit_land, maskByte_testBit e he i hi, Bool.and_false]

lemma maskTrailing_length (bc : Nat) (d : List Nat) (hd : d ≠ []) :
    (maskTrailing bc d).length = d.length := by
  simp only [maskTrailing]
  split
  · rfl
  · simp [List.length_dropLast]
    have : 0 < d.length := List.length_pos.mpr hd
    omega

lemma maskTrailing_getD (bc : Nat) (d : List Nat) (i : Nat) (h : i + 1 < d.length) :
    (maskTrailing bc d).getD i 0 = d.getD i 0 := by
  simp only [maskTrailing]
  split
  · rfl
  · have hlen : i < d.dropLast.length := by
      simp only [List.length_dropLast]
      omega
    rw [List.getD_eq_getElem?_getD, List.getD_eq_getElem?_getD, List.getElem?_append,
      if_pos hlen, List.getElem?_eq_getElem hlen, List.getElem?_eq_getElem (by omega)]
    simp [List.getElem_dropLast]

lemma maskTrailing_last (bc : Nat) (d : List Nat) (h : extraBits bc ≠ 0) :
    (maskTrailing bc d).getLastD 0 = d.getLastD 0 &&& maskByte (extraBits bc) := by
  simp only [maskTrailing, h, if_false]
  rw [List.getLastD_eq_getLast?, List.getLast?_append]
  simp

/-- **C1** (`ReadBitsWithMode`, src/unnamed/part_000, lines 225-241): for every
`bitCount > 0`, a successful one-shot bit read returns exactly
`ceil(bitCount/8)` bytes; the low-order `(8 - bitCount mod 8) mod 8` bits of
the final byte are zero; every byte before the last equals the corresponding
byte read from the device and the last byte is the device byte AND the mask;
`bitCount = 2048` yields exactly 256 device bytes unmasked, and
`bitCount = 10` yields 2 bytes whose low 6 bits of `byte[1]` are zero. -/
theorem readBits_frames_exactly (bitCount : Int) (env : SerialEnv)
    (hpos : 0 < bitCount)
    (hfind : env.findPort.isSome)
    (hopen : env.openOk = true)
    (hreads : ∀ r ∈ env.reads, r.isSome)
    (henough : (bitCount.toNat + 7) / 8 ≤ (deviceBytes env.reads).length) :
    ∃ out,
      (ReadBitsWithMode bitCount env).1 = .ok out ∧
      out.length = (bitCount.toNat + 7) / 8 ∧
      (∀ i, i + 1 < (bitCount.toNat + 7) / 8 →
          out.getD i 0 = (deviceBytes env.reads).getD i 0) ∧
      out.getLastD 0 % 2 ^ extraBits bitCount.toNat = 0 ∧
      (extraBits bitCount.toNat = 0 →
          out = (deviceBytes env.reads).take ((bitCount.toNat + 7) / 8)) ∧
      (extraBits bitCount.toNat ≠ 0 →
          out.getLastD 0 =
            ((deviceBytes env.reads).take ((bitCount.toNat + 7) / 8)).getLastD 0 &&&
              maskByte (extraBits bitCount.toNat)) ∧
      (bitCount = 2048 →
          out.length = 256 ∧ out = (deviceBytes env.reads).take 256) ∧
      (bitCount = 10 → out.length = 2 ∧ out.getLastD 0 % 64 = 0) := by
  obtain ⟨k, rfl⟩ := Int.eq_ofNat_of_zero_le hpos.le
  have hk : 0 < k := by exact_mod_cast hpos
  have htoNat : ((k : Int)).toNat = k := rfl
  rw [htoNat] at henough ⊢
  have hBC : ¬(((k : Int) + 7) / 8 ≤ 0) := by omega
  have hBCtoNat : ((((k : Int) + 7) / 8)).toNat = (k + 7) / 8 := by omega
  obtain ⟨p, hp⟩ := Option.isSome_iff_exists.mp hfind
  have hloop := readLoop_ok ((k + 7) / 8) env.reads 0 [] hreads (by omega)
    (by simpa using henough)
  have hRB : ReadBytesWithMode (((k : Int) + 7) / 8) env =
      (Except.ok ((deviceBytes env.reads).take ((k + 7) / 8)),
        [.findPort, .openPort, .readPhase, .closePort]) := by
    rw [ReadBytesWithMode, if_neg hBC, hp]
    simp only [readBytesFromPort, hopen, if_true, hBCtoNat]
    rw [Nat.sub_zero] at hloop
    rw [hloop]
    simp
  have hbits : (ReadBitsWithMode (k : Int) env).1 =
      .ok (maskTrailing k ((deviceBytes env.reads).take ((k + 7) / 8))) := by
    rw [ReadBitsWithMode, if_neg (by omega : ¬((k : Int) ≤ 0))]
    simp only [hRB, htoNat, Except.map]
  have hdlen : ((deviceBytes env.reads).take ((k + 7) / 8)).length = (k + 7) / 8 := by
    rw [List.length_take]
    omega
  have hdne : (deviceBytes env.reads).take ((k + 7) / 8) ≠ [] := by
    intro h
    have := congrArg List.length h
    rw [hdlen] at this
    simp at this
    omega
  have hlen : (maskTrailing k ((deviceBytes env.reads).take ((k + 7) / 8))).length =
      (k + 7) / 8 := by
    rw [maskTrailing_length k _ hdne, hdlen]
  have hlow : (maskTrailing k ((deviceBytes env.reads).take ((k + 7) / 8))).getLastD 0 %
      2 ^ extraBits k = 0 := by
    by_cases he : extraBits k = 0
    · simp [he, Nat.mod_one]
    · rw [maskTrailing_last k _ he]
      exact land_maskByte_mod _ (extraBits_lt k) _
  refine ⟨maskTrailing k ((deviceBytes env.reads).take ((k + 7) / 8)),
    hbits, hlen, ?_, hlow, ?_, ?_, ?_, ?_⟩
  · intro i hi
    rw [maskTrailing_getD k _ i (by omega)]
    rw [List.getD_eq_getElem?_getD, List.getD_eq_getElem?_getD,
      List.getElem?_take, if_pos (by omega : i < (k + 7) / 8)]
  · intro he
    simp [maskTrailing, he]
  · intro he
    exact maskTrailing_last k _ he
  · intro h2048
    have hke : k = 2048 := by exact_mod_cast h2048
    subst hke
    have he : extraBits 2048 = 0 := by decide
    constructor
    · exact hlen.trans (by norm_num)
    · rw [show ((2048 + 7) / 8 : Nat) = 256 from by norm_num] at hbits ⊢
      simp [maskTrailing, he]
  · intro h10
    have hke : k = 10 := by exact_mod_cast h10
    subst hke
    refine ⟨hlen.trans (by norm_num), ?_⟩
    have : (2 : Nat) ^ extraBits 10 = 64 := by decide
    rw [← this]
    exact hlow

/-- Per-tick environment for the stateless interval collector: `FindPort`
result, `serial.Open` result, read outcomes, and the two cooperative
cancellation checkpoints of the tick. -/
structure TickEnv where
  findPort : Option String
  openOk : Bool
  reads : List (Option (List Nat))
  cancelBefore : Bool
  cancelAfter : Bool

/-- How a run of the stateless collector ends: script exhausted (still
collecting), cancelled via the context, or terminated by an error. -/
inductive CollectEnd where
  | scriptOver
  | cancelled
  | failed (msg : String)
  deriving DecidableEq

/-- The per-tick loop of `CollectBitsAtIntervalWithMode`
(src/unnamed/part_000, lines 269-341): check cancellation, `FindPort`, open
the port, run the bounded read loop (5 s deadline), close, mask trailing
bits, deliver, then wait for cancellation or the next tick.  Returns the
event trace, the delivered samples, and how the run ended. -/
def collectLoop (byteCount bitCount : Nat) :
    List TickEnv → List IoEv × List (List Nat) × CollectEnd
  | [] => ([], [], .scriptOver)
  | t :: rest =>
    if t.cancelBefore then ([], [], .cancelled)
    else
      match t.findPort with
      | none => ([.findPort], [], .failed "device not found")
      | some _ =>
        if t.openOk = false then ([.findPort, .openPort], [], .failed "open failed")
        else
          match readLoop byteCount t.reads 0 [] with
          | .timeout _ _ =>
            ([.findPort, .openPort, .readPhase, .closePort], [],
              .failed "read timeout after 5s")
          | .readErr =>
            ([.findPort, .openPort, .readPhase, .closePort], [],
              .failed "read error")
          | .ok data =>
            let out := maskTrailing bitCount data
            let evs : List IoEv :=
              [.findPort, .openPort, .readPhase, .closePort, .deliver out]
            if t.cancelAfter then (evs, [out], .cancelled)
            else
              let r := collectLoop byteCount bitCount rest
              (evs ++ r.1, out :: r.2.1, r.2.2)

/-- `CollectBitsAtIntervalWithMode` (src/unnamed/part_000, lines 251-342):
argument validation in source order, then the per-tick loop. -/
def CollectBitsAtIntervalWithMode (bitCount interval : Int) (hasCallback : Bool)
    (ticks : List TickEnv) : Except String Unit × List IoEv × List (List Nat) :=
  if bitCount ≤ 0 then (.error "bitCount must be positive", [], [])
  else if interval ≤ 0 then (.error "interval must be positive", [], [])
  else if hasCallback = false then (.error "onBatch callback must not be nil", [], [])
  else
    let r := collectLoop ((bitCount.toNat + 7) / 8) bitCount.toNat ticks
    (match r.2.2 with
      | .scriptOver => .ok ()
      | .cancelled => .error "context canceled"
      | .failed msg => .error msg,
     r.1, r.2.1)

/-- **C4** (`CollectBitsAtIntervalWithMode` lines 251-260, `ReadBytesWithMode`
lines 158-169, `ReadBitsWithMode` lines 225-241 of src/unnamed/part_000):
a non-positive bit count, a non-positive interval, or a missing callback
makes the interval collector fail immediately with an invalid-argument error
and an empty I/O trace (no discovery, no open, no read, no sample); a
non-positive bit count likewise makes the one-shot reads fail with an empty
I/O trace. -/
theorem invalid_args_no_io (bitCount interval : Int) (cb : Bool)
    (ticks : List TickEnv) (env : SerialEnv) :
    (bitCount ≤ 0 ∨ interval ≤ 0 ∨ cb = false →
      ∃ msg, CollectBitsAtIntervalWithMode bitCount interval cb ticks =
        (.error msg, [], [])) ∧
    (bitCount ≤ 0 →
      ReadBitsWithMode bitCount env = (.error "bitCount must be positive", []) ∧
      ReadBytesWithMode bitCount env = (.error "blockSize must be positive", [])) := by
  constructor
  · intro h
    unfold CollectBitsAtIntervalWithMode
    split_ifs with h1 h2 h3
    · exact ⟨_, rfl⟩
    · exact ⟨_, rfl⟩
    · exact ⟨_, rfl⟩
    · rcases h with h | h | h
      · exact absurd h h1
      · exact absurd h h2
      · exact absurd h h3
  · intro h
    constructor
    · simp [ReadBitsWithMode, h]
    · simp [ReadBytesWithMode, h]

/-- Witness for C4 at `bitCount = 0`. -/
theorem invalid_args_no_io_witness :
    (∃ msg, CollectBitsAtIntervalWithMode 0 1 true [] = (.error msg, [], [])) ∧
    ReadBitsWithMode 0 ⟨some "ttyUSB0", true, []⟩ =
      (.error "bitCount must be positive", []) := by
  have h := invalid_args_no_io 0 1 true [] ⟨some "ttyUSB0", true, []⟩
  exact ⟨h.1 (Or.inl le_rfl), (h.2 le_rfl).1⟩

/-- Outcome of one `port.Read` call in the reconnect-capable loop.
`errClosed` is an error whose message contains "closed" or "broken pipe";
`deadline` models `time.Now().After(deadline)` turning true before the
read; an exhausted outcome list likewise ends the tick's read attempts. -/
inductive ReadOutcome where
  | bytes (bs : List Nat)
  | errClosed
  | errOther
  | deadline
  deriving DecidableEq

/-- Per-outer-iteration environment for `CollectBitsAtIntervalWithReconnect`:
the tick's read outcomes and the `FindPort` / `connectToDevice` results used
if the tick takes the reconnect path. -/
structure RcEnv where
  reads : List ReadOutcome
  findPort : Option String
  connectOk : Bool

/-- State on leaving the inner read loop of the reconnect-capable collector
(src/unnamed/part_000, lines 496-536): bytes collected, `total`,
`readSuccessful`, whether the error branch closed the port and set it to
nil, the `consecutiveErrors` counter, and whether the
too-many-consecutive-errors return fired. -/
structure InnerOut where
  collected : List Nat
  total : Nat
  success : Bool
  portNil : Bool
  counter : Nat
  fatal : Bool
  deriving DecidableEq

/-- The inner read loop
`for total < byteCount && readAttempts < maxReadAttempts && !readSuccessful`
(src/unnamed/part_000, lines 504-536), one script entry per `port.Read`. -/
def innerLoop (byteCount : Nat) : List ReadOutcome → Nat → Nat → List Nat → Nat → InnerOut
  | [], _, total, collected, counter => ⟨collected, total, false, false, counter, false⟩
  | o :: rest, attempts, total, collected, counter =>
    if total < byteCount ∧ attempts < 30 then
      match o with
      | .deadline => ⟨collected, total, false, false, counter, false⟩
      | .errClosed => ⟨collected, total, false, true, counter, false⟩
      | .errOther => ⟨collected, total, false, false, counter + 1, decide (3 ≤ counter + 1)⟩
      | .bytes bs =>
        let n := min bs.length (byteCount - total)
        if n = 0 then innerLoop byteCount rest (attempts + 1) total collected counter
        else if byteCount ≤ total + n then
          ⟨collected ++ bs.take n, total + n, true, false, 0, false⟩
        else innerLoop byteCount rest (attempts + 1) (total + n) (collected ++ bs.take n) 0
    else ⟨collected, total, false, false, counter, false⟩

/-- Events of a reconnect-capable run. -/
inductive RcEv where
  | sessionClosed
  | backoff
  | findOk
  | findFail
  | connectOk
  | connectFail
  | deliver (bs : List Nat)
  | fatalStop
  | panicStop
  deriving DecidableEq

/-- The outer loop of `CollectBitsAtIntervalWithReconnect`
(src/unnamed/part_000, lines 488-589): read; on a fatal error stop; on an
unsuccessful tick close the stale session, back off, re-discover, reconnect
(resetting the error counter on success); otherwise mask and deliver.  A
tick entered with a nil port models the Go code calling `port.Read` on a
nil interface, which panics. -/
def rcLoop (byteCount bitCount : Nat) : List RcEnv → Bool → Nat → List RcEv
  | [], _, _ => []
  | env :: rest, portLive, counter =>
    if portLive = false then [.panicStop]
    else
      let r := innerLoop byteCount env.reads 0 0 [] counter
      if r.fatal then [.fatalStop]
      else if r.success = false ∨ r.portNil = true then
        match env.findPort with
        | none => .sessionClosed :: .backoff :: .findFail ::
            rcLoop byteCount bitCount rest false counter
        | some _ =>
          if env.connectOk then
            .sessionClosed :: .backoff :: .findOk :: .connectOk ::
              rcLoop byteCount bitCount rest true 0
          else
            .sessionClosed :: .backoff :: .findOk :: .connectFail ::
              rcLoop byteCount bitCount rest false counter
      else
        .deliver (maskTrailing bitCount r.collected) ::
          rcLoop byteCount bitCount rest true r.counter

/-- `CollectBitsAtIntervalWithReconnect` (src/unnamed/part_000, lines
450-590): validation, initial discovery and connection, then the loop. -/
def CollectBitsAtIntervalWithReconnect (bitCount interval : Int) (hasCallback : Bool)
    (initFind : Option String) (initConnect : Bool) (envs : List RcEnv) :
    Except String (List RcEv) :=
  if bitCount ≤ 0 then .error "bitCount must be positive"
  else if interval ≤ 0 then .error "interval must be positive"
  else if hasCallback = false then .error "onBatch callback must not be nil"
  else
    match initFind with
    | none => .error "TrueRNG device not found"
    | some _ =>
      if initConnect = false then .error "initial connection failed"
      else .ok (rcLoop ((bitCount.toNat + 7) / 8) bitCount.toNat envs true 0)

/-- **C3** (`CollectBitsAtIntervalWithReconnect`, src/unnamed/part_000,
lines 504-573): (a) injecting a single read error containing
"closed"/"broken pipe" makes the loop close the stale session, wait the
backoff, re-discover the device, reconnect (resetting the consecutive-error
counter), deliver no sample for that tick, and produce exactly one reconnect
attempt before the next successful sample; (b) a read failing to complete
within its deadline behaves the same way; (c) three consecutive non-fatal
read errors each trigger that reconnect cycle (the counter is reset on each
successful reconnect, so the fatal too-many-errors stop never fires) and no
sample is delivered for those ticks. -/
theorem reconnect_single_error_one_reconnect (bitCount interval : Int) (cb : Bool)
    (p q : String) (bs : List Nat) (e2 : Option String) (c2 : Bool)
    (hpos : 0 < bitCount) (hint : 0 < interval) (hcb : cb = true)
    (hbs : bs.length = (bitCount.toNat + 7) / 8) :
    CollectBitsAtIntervalWithReconnect bitCount interval cb (some p) true
        [⟨[.errClosed], some q, true⟩, ⟨[.bytes bs], e2, c2⟩] =
      .ok [.sessionClosed, .backoff, .findOk, .connectOk,
        .deliver (maskTrailing bitCount.toNat bs)] ∧
    CollectBitsAtIntervalWithReconnect bitCount interval cb (some p) true
        [⟨[.deadline], some q, true⟩, ⟨[.bytes bs], e2, c2⟩] =
      .ok [.sessionClosed, .backoff, .findOk, .connectOk,
        .deliver (maskTrailing bitCount.toNat bs)] ∧
    CollectBitsAtIntervalWithReconnect bitCount interval cb (some p) true
        [⟨[.errOther], some q, true⟩, ⟨[.errOther], some q, true⟩,
         ⟨[.errOther], some q, true⟩, ⟨[.bytes bs], e2, c2⟩] =
      .ok [.sessionClosed, .backoff, .findOk, .connectOk,
        .sessionClosed, .backoff, .findOk, .connectOk,
        .sessionClosed, .backoff, .findOk, .connectOk,
        .deliver (maskTrailing bitCount.toNat bs)] := by
  obtain ⟨k, rfl⟩ := Int.eq_ofNat_of_zero_le hpos.le
  have hk : 0 < k := by exact_mod_cast hpos
  have htoNat : ((k : Int)).toNat = k := rfl
  rw [htoNat] at hbs ⊢
  have hbc : 0 < (k + 7) / 8 := by omega
  have hv1 : ¬((k : Int) ≤ 0) := by omega
  have hinnerClosed : ∀ c : Nat, innerLoop ((k + 7) / 8) [.errClosed] 0 0 [] c =
      ⟨[], 0, false, true, c, false⟩ := by
    intro c
    rw [innerLoop, if_pos ⟨hbc, by norm_num⟩]
  have hinnerDeadline : ∀ c : Nat, innerLoop ((k + 7) / 8) [.deadline] 0 0 [] c =
      ⟨[], 0, false, false, c, false⟩ := by
    intro c
    rw [innerLoop, if_pos ⟨hbc, by norm_num⟩]
  have hinnerErr : innerLoop ((k + 7) / 8) [.errOther] 0 0 [] 0 =
      ⟨[], 0, false, false, 1, false⟩ := by
    rw [innerLoop, if_pos ⟨hbc, by norm_num⟩]
    simp
  have hinnerBytes : innerLoop ((k + 7) / 8) [.bytes bs] 0 0 [] 0 =
      ⟨bs, (k + 7) / 8, true, false, 0, false⟩ := by
    rw [innerLoop, if_pos ⟨hbc, by norm_num⟩]
    simp only [hbs, Nat.sub_zero, Nat.min_self]
    rw [if_neg (by omega), if_pos (by omega)]
    simp [← hbs]
  have hstep2 : rcLoop ((k + 7) / 8) k [⟨[.bytes bs], e2, c2⟩] true 0 =
      [.deliver (maskTrailing k bs)] := by
    rw [rcLoop]
    simp [hinnerBytes, rcLoop]
  refine ⟨?_, ?_, ?_⟩
  · rw [CollectBitsAtIntervalWithReconnect, if_neg hv1, if_neg (by omega),
      if_neg (by simp [hcb]), if_neg (by simp)]
    rw [htoNat, rcLoop]
    simp only [hinnerClosed, if_neg (by simp : ¬(true = false))]
    simp [hstep2]
  · rw [CollectBitsAtIntervalWithReconnect, if_neg hv1, if_neg (by omega),
      if_neg (by simp [hcb]), if_neg (by simp)]
    rw [htoNat, rcLoop]
    simp only [hinnerDeadline, if_neg (by simp : ¬(true = false))]
    simp [hstep2]
  · rw [CollectBitsAtIntervalWithReconnect, if_neg hv1, if_neg (by omega),
      if_neg (by simp [hcb]), if_neg (by simp)]
    rw [htoNat, rcLoop]
    simp only [hinnerErr, if_neg (by simp : ¬(true = false))]
    rw [rcLoop]
    simp only [hinnerErr, if_neg (by simp : ¬(true = false))]
    rw [rcLoop]
    simp only [hinnerErr, if_neg (by simp : ¬(true = false))]
    simp [hstep2]

/-- Witness for C3 at `bitCount = 16` with device bytes `[1, 2]`. -/
theorem reconnect_single_error_one_reconnect_witness :
    CollectBitsAtIntervalWithReconnect 16 1 true (some "ttyUSB0") true
        [⟨[.errClosed], some "ttyACM0", true⟩, ⟨[.bytes [1, 2]], none, false⟩] =
      .ok [.sessionClosed, .backoff, .findOk, .connectOk,
        .deliver (maskTrailing (16 : Int).toNat [1, 2])] :=
  (reconnect_single_error_one_reconnect 16 1 true "ttyUSB0" "ttyACM0" [1, 2]
    none false (by norm_num) (by norm_num) rfl (by decide)).1

/-- Witness for C1 at `bitCount = 10` with a two-byte device read. -/
theorem readBits_frames_exactly_witness :
    ∃ out,
      (ReadBitsWithMode 10 ⟨some "ttyUSB0", true, [some [171, 205]]⟩).1 = .ok out ∧
      out.length = 2 ∧ out.getLastD 0 % 64 = 0 := by
  obtain ⟨out, h1, _, _, _, _, _, _, h8⟩ :=
    readBits_frames_exactly 10 ⟨some "ttyUSB0", true, [some [171, 205]]⟩
      (by norm_num) (by decide) rfl (by decide) (by decide)
  exact ⟨out, h1, (h8 rfl).1, (h8 rfl).2⟩

/-- `CaptureMode.GetBaudRate` (src/unnamed/part_000, lines 60-85): a switch
over the mode string; the `default` branch silently returns 300
("Default to MODE_NORMAL").  `CaptureMode` is a Go string type. -/
def GetBaudRate (m : String) : Int :=
  if m = "MODE_NORMAL" then 300
  else if m = "MODE_PSDEBUG" then 1200
  else if m = "MODE_RNGDEBUG" then 2400
  else if m = "MODE_RNG1WHITE" then 4800
  else if m = "MODE_RNG2WHITE" then 9600
  else if m = "MODE_RAW_BIN" then 19200
  else if m = "MODE_RAW_ASC" then 38400
  else if m = "MODE_UNWHITENED" then 57600
  else if m = "MODE_NORMAL_ASC" then 115200
  else if m = "MODE_NORMAL_ASC_SLOW" then 230400
  else 300

/-- The ten capture modes declared in the registry
(src/unnamed/part_000, lines 46-57). -/
def knownModes : List String :=
  ["MODE_NORMAL", "MODE_PSDEBUG", "MODE_RNGDEBUG", "MODE_RNG1WHITE",
   "MODE_RNG2WHITE", "MODE_RAW_BIN", "MODE_RAW_ASC", "MODE_UNWHITENED",
   "MODE_NORMAL_ASC", "MODE_NORMAL_ASC_SLOW"]

/-- **C6 counterexample**: an unrecognized mode is NOT reported to the
caller: `GetBaudRate` silently returns the default 300 baud for it, a value
indistinguishable from the legitimate resolution of `MODE_NORMAL`, and its
`Int` result type carries no error signal. -/
theorem unknown_mode_silently_defaults :
    "MODE_BOGUS" ∉ knownModes ∧
    GetBaudRate "MODE_BOGUS" = 300 ∧
    GetBaudRate "MODE_BOGUS" = GetBaudRate "MODE_NORMAL" := by
  refine ⟨by decide, rfl, rfl⟩

/-- **C6 amended** (`CaptureMode.GetBaudRate`, src/unnamed/part_000, lines
60-85): every mode in the registry maps to exactly one positive baud rate
(the function is total and deterministic), but an unknown mode silently
defaults to 300 baud (`MODE_NORMAL`'s rate) with no indication to the
caller. -/
theorem mode_registry_baud (m : String) :
    (m ∈ knownModes → 0 < GetBaudRate m) ∧
    (m ∉ knownModes → GetBaudRate m = 300) := by
  constructor
  · intro hm
    simp only [knownModes, List.mem_cons, List.not_mem_nil, or_false] at hm
    rcases hm with rfl | rfl | rfl | rfl | rfl | rfl | rfl | rfl | rfl | rfl <;> decide
  · intro hm
    simp only [knownModes, List.mem_cons, List.not_mem_nil, or_false, not_or] at hm
    obtain ⟨h1, h2, h3, h4, h5, h6, h7, h8, h9, h10⟩ := hm
    simp [GetBaudRate, h1, h2, h3, h4, h5, h6, h7, h8, h9, h10]

/-- Witness for the amended C6. -/
theorem mode_registry_baud_witness :
    0 < GetBaudRate "MODE_RAW_BIN" ∧ GetBaudRate "MODE_XYZ" = 300 :=
  ⟨(mode_registry_baud "MODE_RAW_BIN").1 (by decide),
   (mode_registry_baud "MODE_XYZ").2 (by decide)⟩

/-- TrueRNG device models (src/unnamed/part_000, lines 22-27).
`trueRNG` is the baseline model of the family. -/
inductive DeviceModel where
  | unknown
  | trueRNG
  | trueRNGpro
  | trueRNGproV2
  deriving DecidableEq

/-- The fields of `enumerator.PortDetails` consulted by `getTrueRNGModel`.
Strings are ASCII character lists so that Go's `strings.ToUpper` /
`strings.Contains` are `Char.toUpper` maps and substring search. -/
structure PortDetails where
  name : List Char
  isUSB : Bool
  vid : List Char
  pid : List Char
  serialNumber : List Char
  product : List Char

/-- `strings.ToUpper` restricted to the ASCII data the code compares. -/
def upper (s : List Char) : List Char := s.map Char.toUpper

/-- `strings.Contains(s, sub)`: `sub` occurs as a contiguous substring. -/
def containsSeq (sub : List Char) : List Char → Bool
  | [] => sub.isEmpty
  | c :: rest => sub.isPrefixOf (c :: rest) || containsSeq sub rest

/-- The exact VID/PID table of `getTrueRNGModel`
(src/unnamed/part_000, lines 352-372). -/
def vidPidMatch (p : PortDetails) : Prop :=
  p.isUSB = true ∧
    ((upper p.vid = "04D8".toList ∧ upper p.pid = "F5FE".toList) ∨
     (upper p.vid = "16D0".toList ∧ upper p.pid = "0AA0".toList) ∨
     (upper p.vid = "04D8".toList ∧ upper p.pid = "EBB5".toList) ∨
     (upper p.vid = "16D0".toList ∧
       (upper p.pid = "0AA2".toList ∨ upper p.pid = "0AA4".toList)))

/-- The fallback rules of `getTrueRNGModel` (src/unnamed/part_000, lines
374-383): case-insensitive substring match against the product string, the
serial number, or the port name. -/
def fallbackMatch (p : PortDetails) : Prop :=
  (p.isUSB = true ∧ p.product ≠ [] ∧
    containsSeq "TRUERNG".toList (upper p.product) = true) ∨
  (p.isUSB = true ∧ p.serialNumber ≠ [] ∧
    containsSeq "TRUERNG".toList (upper p.serialNumber) = true) ∨
  (p.name ≠ [] ∧ containsSeq "TRUERNG".toList (upper p.name) = true)

/-- `getTrueRNGModel` (src/unnamed/part_000, lines 346-386): nil check, the
VID/PID table in source order, then the three fallback rules. -/
def getTrueRNGModel : Option PortDetails → DeviceModel
  | none => .unknown
  | some p =>
    if p.isUSB = true ∧ upper p.vid = "04D8".toList ∧ upper p.pid = "F5FE".toList then
      .trueRNG
    else if p.isUSB = true ∧ upper p.vid = "16D0".toList ∧ upper p.pid = "0AA0".toList then
      .trueRNGpro
    else if p.isUSB = true ∧ upper p.vid = "04D8".toList ∧ upper p.pid = "EBB5".toList then
      .trueRNGproV2
    else if p.isUSB = true ∧ upper p.vid = "16D0".toList ∧
        (upper p.pid = "0AA2".toList ∨ upper p.pid = "0AA4".toList) then
      .trueRNGpro
    else if p.isUSB = true ∧ p.product ≠ [] ∧
        containsSeq "TRUERNG".toList (upper p.product) = true then
      .trueRNGpro
    else if p.isUSB = true ∧ p.serialNumber ≠ [] ∧
        containsSeq "TRUERNG".toList (upper p.serialNumber) = true then
      .trueRNGpro
    else if p.name ≠ [] ∧ containsSeq "TRUERNG".toList (upper p.name) = true then
      .trueRNGpro
    else .unknown

/-- **C7** (`getTrueRNGModel`, src/unnamed/part_000, lines 374-385): a port
matching the TrueRNG family only via the fallback rules (product string,
serial number, or port name substring) and not via the exact VID/PID table
is reported as `TrueRNGpro` — a more capable variant — never the baseline
`TrueRNG` model. -/
theorem fallback_reports_capable_model (p : PortDetails)
    (hno : ¬ vidPidMatch p) (hfb : fallbackMatch p) :
    getTrueRNGModel (some p) = .trueRNGpro ∧
      (DeviceModel.trueRNGpro ≠ DeviceModel.trueRNG) := by
  refine ⟨?_, by decide⟩
  rw [getTrueRNGModel]
  split_ifs with h1 h2 h3 h4 h5 h6 h7
  · exact absurd ⟨h1.1, Or.inl h1.2⟩ hno
  · exact absurd ⟨h2.1, Or.inr (Or.inl h2.2)⟩ hno
  · exact absurd ⟨h3.1, Or.inr (Or.inr (Or.inl h3.2))⟩ hno
  · exact absurd ⟨h4.1, Or.inr (Or.inr (Or.inr h4.2))⟩ hno
  · rfl
  · rfl
  · rfl
  · rcases hfb with h | h | h
    · exact absurd h h5
    · exact absurd h h6
    · exact absurd h h7

/-- Witness for C7: a USB port with a non-table VID/PID and product string
"TrueRNG gadget". -/
theorem fallback_reports_capable_model_witness :
    getTrueRNGModel (some ⟨"ttyUSB3".toList, true, "abcd".toList, "1234".toList,
      [], "TrueRNG gadget".toList⟩) = .trueRNGpro ∧
      (DeviceModel.trueRNGpro ≠ DeviceModel.trueRNG) :=
  fallback_reports_capable_model _
    (by unfold vidPidMatch; decide) (by unfold fallbackMatch; decide)

end TrueRng

namespace Bbusb

/-- `roundUpToMaxPacket` (src/bbusb/device_linux.go, lines 291-299); the
`max <= 0` guard is `maxp = 0` for the natural-number sizes involved. -/
def roundUpToMaxPacket (n maxp : Nat) : Nat :=
  if maxp = 0 then n
  else if n % maxp = 0 then n
  else (n / maxp + 1) * maxp

/-- Size of the scratch buffer used for the bulk reads:
`make([]byte, roundUpToMaxPacket(n, s.maxPacket)+s.maxPacket)`
(src/bbusb/device_linux.go, line 197). -/
def scratchSize (n maxp : Nat) : Nat := roundUpToMaxPacket n maxp + maxp

/-- The per-received-chunk parsing loop of `ReadRandom`
(src/bbusb/device_linux.go, lines 207-226): walk the chunk in pieces of at
most `maxPacket` bytes, stop when at most 2 bytes remain, strip the 2-byte
status header of each piece, cap the copy at `want - got`, stop once `want`
is reached.  Fuel makes the Go loop's termination explicit; it suffices
whenever each piece advances (`maxPacket ≥ 1`). -/
def parseChunkLoop (maxPacket want : Nat) :
    Nat → Nat → List Nat → List Nat → Option (Nat × List Nat)
  | 0, _, _, _ => none
  | fuel + 1, got, acc, rest =>
    if rest.length ≤ 2 then some (got, acc)
    else
      if got + min (min rest.length maxPacket - 2) (want - got) = want then
        some (want,
          acc ++ (rest.drop 2).take (min (min rest.length maxPacket - 2) (want - got)))
      else
        parseChunkLoop maxPacket want fuel
          (got + min (min rest.length maxPacket - 2) (want - got))
          (acc ++ (rest.drop 2).take (min (min rest.length maxPacket - 2) (want - got)))
          (rest.drop (min rest.length maxPacket))

/-- How the bulk-read loop of `ReadRandom` ends: `done` with exactly the
requested bytes, a bulk-IN read error, an exhausted script (the Go read
would block), or fuel exhaustion inside a chunk (impossible for real packet
sizes). -/
inductive RrRes where
  | done (acc : List Nat)
  | readErr (got : Nat) (acc : List Nat)
  | starved
  | stuck
  deriving DecidableEq

/-- The outer loop `for got < want` of `ReadRandom`
(src/bbusb/device_linux.go, lines 198-227): one script entry per
`inEp.Read`; received chunks of at most 2 bytes are skipped. -/
def bulkLoop (maxPacket want : Nat) : List (Option (List Nat)) → Nat → List Nat → RrRes
  | [], got, acc => if got < want then .starved else .done acc
  | oc :: rest, got, acc =>
    if got < want then
      match oc with
      | none => .readErr got acc
      | some c =>
        if c.length ≤ 2 then bulkLoop maxPacket want rest got acc
        else
          match parseChunkLoop maxPacket want (c.length + 1) got acc c with
          | none => .stuck
          | some (got2, acc2) => bulkLoop maxPacket want rest got2 acc2
    else .done acc

/-- The MPSSE read command `[0x20, byte(n-1), byte((n-1)>>8), 0x87]`
(src/bbusb/device_linux.go, lines 185-190). -/
def readCmd (n : Nat) : List Nat :=
  [0x20, (n - 1) % 256, ((n - 1) >>> 8) % 256, 0x87]

/-- `ReadRandom` (src/bbusb/device_linux.go, lines 180-229) with its I/O
trace: an empty buffer returns `(0, nil)` at once with no I/O; otherwise
the MPSSE command is written and the bulk-read loop runs. -/
def ReadRandom (maxPacket n : Nat) (chunks : List (Option (List Nat))) :
    RrRes × List IoEv :=
  if n = 0 then (.done [], [])
  else (bulkLoop maxPacket n chunks 0 [], [.writeCmd (readCmd n), .readPhase])

/-- Spec-side payload extraction, following the spec's words: the received
data is parsed in pieces of at most the endpoint's max packet size and the
first 2 status-header bytes of every piece are stripped (a piece of at most
2 bytes strips to nothing, so chunks of 2 bytes or fewer are discarded as
empty).  Real endpoints have a positive packet size; `maxp = 0` yields no
payload. -/
def specPayload (maxp : Nat) (c : List Nat) : List Nat :=
  if h : maxp = 0 ∨ c = [] then []
  else (c.take maxp).drop 2 ++ specPayload maxp (c.drop maxp)
termination_by c.length
decreasing_by
  push_neg at h
  simp only [List.length_drop]
  have hne : c.length ≠ 0 := fun hh => h.2 (List.length_eq_zero.mp hh)
  omega

/-- Payload of a whole chunk script. -/
def totalPayload (maxp : Nat) (chunks : List (Option (List Nat))) : List Nat :=
  (chunks.map (fun oc => specPayload maxp (oc.getD []))).flatten

lemma specPayload_nil (maxp : Nat) : specPayload maxp [] = [] := by
  rw [specPayload]
  simp

lemma specPayload_short (maxp : Nat) (c : List Nat) (hmp : 2 < maxp)
    (hc : c.length ≤ 2) : specPayload maxp c = [] := by
  rw [specPayload]
  split
  · rfl
  · have h1 : (c.take maxp).drop 2 = [] := by
      rw [List.drop_eq_nil_iff]
      simp [List.length_take]
      omega
    have h2 : c.drop maxp = [] := by
      rw [List.drop_eq_nil_iff]
      omega
    rw [h1, h2, specPayload_nil]
    rfl

lemma specPayload_step (maxp : Nat) (c : List Nat) (hmp : 2 < maxp)
    (hc : 2 < c.length) :
    specPayload maxp c = (c.take maxp).drop 2 ++ specPayload maxp (c.drop maxp) := by
  have hcond : ¬(maxp = 0 ∨ c = []) := by
    push_neg
    refine ⟨by omega, fun hnil => ?_⟩
    rw [hnil] at hc
    simp at hc
  rw [specPayload, dif_neg hcond]

lemma copied_eq_piece (maxp : Nat) (c : List Nat) :
    (c.drop 2).take (min c.length maxp - 2) = (c.take maxp).drop 2 := by
  rw [List.drop_take maxp 2 c]
  rcases Nat.le_total c.length maxp with h | h
  · rw [Nat.min_eq_left h,
      List.take_of_length_le (by simp),
      List.take_of_length_le (by simp; omega)]
  · rw [Nat.min_eq_right h]

lemma piece_length (maxp : Nat) (c : List Nat) (h2 : 2 < c.length) (hmp : 2 < maxp) :
    ((c.take maxp).drop 2).length = min c.length maxp - 2 := by
  simp [List.length_take]
  omega

lemma drop_min_eq_drop (maxp : Nat) (c : List Nat) :
    c.drop (min c.length maxp) = c.drop maxp := by
  rcases Nat.le_total c.length maxp with h | h
  · rw [Nat.min_eq_left h, List.drop_eq_nil_iff.mpr h, List.drop_eq_nil_iff.mpr le_rfl]
  · rw [Nat.min_eq_right h]

lemma take_append_full (A B : List Nat) (m : Nat) (h : A.length ≤ m) :
    (A ++ B).take m = A ++ B.take (m - A.length) := by
  rw [List.take_append_eq_append_take, List.take_of_length_le h]

lemma take_append_small (A B : List Nat) (m : Nat) (h : m ≤ A.length) :
    (A ++ B).take m = A.take m := by
  rw [List.take_append_eq_append_take, Nat.sub_eq_zero_of_le h, List.take_zero,
    List.append_nil]

lemma parseChunkLoop_eq (maxPacket want : Nat) (hmp : 2 < maxPacket) :
    ∀ (fuel : Nat) (c : List Nat) (got : Nat) (acc : List Nat),
      c.length < fuel → got ≤ want →
      parseChunkLoop maxPacket want fuel got acc c =
        some (min want (got + (specPayload maxPacket c).length),
          acc ++ (specPayload maxPacket c).take (want - got)) := by
  intro fuel
  induction fuel with
  | zero =>
    intro c got acc hf _
    exact absurd hf (Nat.not_lt_zero _)
  | succ fuel ih =>
    intro c got acc hf hgw
    rw [parseChunkLoop]
    by_cases hshort : c.length ≤ 2
    · rw [if_pos hshort, specPayload_short maxPacket c hmp hshort]
      simp [Nat.min_eq_right hgw]
    · rw [if_neg hshort]
      push_neg at hshort
      have hsp := specPayload_step maxPacket c hmp hshort
      have hplen := piece_length maxPacket c hshort hmp
      have hsplen : (specPayload maxPacket c).length =
          (min c.length maxPacket - 2) +
            (specPayload maxPacket (c.drop maxPacket)).length := by
        rw [hsp, List.length_append, hplen]
      have htk2 : 2 < min c.length maxPacket := lt_min hshort hmp
      rcases Nat.le_total (want - got) (min c.length maxPacket - 2) with hcase | hcase
      · -- the copy is capped at want - got: the read finishes inside this piece
        rw [Nat.min_eq_right hcase, if_pos (by omega)]
        have hmin : min want (got + (specPayload maxPacket c).length) = want := by
          rw [Nat.min_eq_left (by omega)]
        have htake : (specPayload maxPacket c).take (want - got) =
            (c.drop 2).take (want - got) := by
          rw [hsp, take_append_small _ _ _ (by rw [hplen]; omega),
            List.drop_take maxPacket 2 c, List.take_take,
            Nat.min_eq_left (by omega)]
        rw [hmin, htake]
      · -- the whole piece is copied
        have husable : min (min c.length maxPacket - 2) (want - got) =
            min c.length maxPacket - 2 := Nat.min_eq_left hcase
        rw [husable]
        have hcopied := copied_eq_piece maxPacket c
        by_cases hdone : got + (min c.length maxPacket - 2) = want
        · rw [if_pos hdone]
          have hmin : min want (got + (specPayload maxPacket c).length) = want := by
            rw [Nat.min_eq_left (by omega)]
          have hfull : ((c.take maxPacket).drop 2).take (want - got) =
              (c.take maxPacket).drop 2 :=
            List.take_of_length_le (by rw [hplen]; omega)
          have htake : (specPayload maxPacket c).take (want - got) =
              (c.drop 2).take (min c.length maxPacket - 2) := by
            rw [hsp, take_append_small _ _ _ (by rw [hplen]; omega), hfull]
            exact hcopied.symm
          rw [hmin, htake]
        · rw [if_neg hdone]
          rw [drop_min_eq_drop maxPacket c]
          rw [ih (c.drop maxPacket) (got + (min c.length maxPacket - 2))
            (acc ++ (c.drop 2).take (min c.length maxPacket - 2))
            (by simp [List.length_drop]; omega) (by omega)]
          have hgot : min want
              (got + (min c.length maxPacket - 2) +
                (specPayload maxPacket (c.drop maxPacket)).length) =
              min want (got + (specPayload maxPacket c).length) := by
            rw [hsplen]
            ring_nf
          have hacc : acc ++ (c.drop 2).take (min c.length maxPacket - 2) ++
              (specPayload maxPacket (c.drop maxPacket)).take
                (want - (got + (min c.length maxPacket - 2))) =
              acc ++ (specPayload maxPacket c).take (want - got) := by
            rw [hsp, take_append_full _ _ _ (by rw [hplen]; omega), hplen, hcopied,
              List.append_assoc]
            congr 3
            omega
          rw [hgot, hacc]

lemma bulkLoop_eq (maxPacket want : Nat) (hmp : 2 < maxPacket) :
    ∀ (chunks : List (Option (List Nat))) (got : Nat) (acc : List Nat),
      (∀ oc ∈ chunks, oc.isSome) → got ≤ want →
      want ≤ got + (totalPayload maxPacket chunks).length →
      bulkLoop maxPacket want chunks got acc =
        .done (acc ++ (totalPayload maxPacket chunks).take (want - got)) := by
  intro chunks
  induction chunks with
  | nil =>
    intro got acc _ h1 h2
    simp [totalPayload] at h2
    rw [bulkLoop, if_neg (by omega)]
    have : want - got = 0 := by omega
    simp [totalPayload, this]
  | cons oc rest ih =>
    intro got acc hsome hgw henough
    obtain ⟨c, rfl⟩ := Option.isSome_iff_exists.mp (hsome oc (by simp))
    have htp : totalPayload maxPacket (some c :: rest) =
        specPayload maxPacket c ++ totalPayload maxPacket rest := by
      simp [totalPayload]
    rw [htp] at henough ⊢
    rw [List.length_append] at henough
    by_cases hlt : got < want
    · rw [bulkLoop, if_pos hlt]
      by_cases hcs : c.length ≤ 2
      · rw [if_pos hcs]
        have hzero := specPayload_short maxPacket c hmp hcs
        rw [ih got acc (fun x hx => hsome x (by simp [hx])) hgw
          (by rw [hzero] at henough; simpa using henough)]
        rw [hzero]
        simp
      · rw [if_neg hcs]
        rw [parseChunkLoop_eq maxPacket want hmp (c.length + 1) c got acc
          (by omega) hgw]
        rcases Nat.le_total want (got + (specPayload maxPacket c).length) with hc2 | hc2
        · rw [Nat.min_eq_left hc2]
          dsimp only
          rw [ih want (acc ++ (specPayload maxPacket c).take (want - got))
            (fun x hx => hsome x (by simp [hx])) le_rfl (by omega)]
          rw [Nat.sub_self, List.take_zero, List.append_nil,
            take_append_small (specPayload maxPacket c) (totalPayload maxPacket rest)
              (want - got) (by omega)]
        · rw [Nat.min_eq_right hc2]
          dsimp only
          rw [ih (got + (specPayload maxPacket c).length)
            (acc ++ (specPayload maxPacket c).take (want - got))
            (fun x hx => hsome x (by simp [hx])) (by omega) (by omega)]
          have h1 : (specPayload maxPacket c).take (want - got) =
              specPayload maxPacket c :=
            List.take_of_length_le (by omega)
          rw [h1, take_append_full (specPayload maxPacket c)
              (totalPayload maxPacket rest) (want - got) (by omega),
            List.append_assoc,
            show want - (got + (specPayload maxPacket c).length) =
              want - got - (specPayload maxPacket c).length from by omega]
    · rw [bulkLoop, if_neg hlt]
      have : want - got = 0 := by omega
      simp [this]

/-- **C2** (`ReadRandom` lines 180-229 and `roundUpToMaxPacket` lines
291-299 of src/bbusb/device_linux.go): a bulk read of `n > 0` bytes parses
the received data in pieces of at most the endpoint's max packet size,
strips the 2-byte status header of every piece, discards received chunks of
at most 2 bytes as empty, and copies payload bytes until exactly `n` bytes
are accumulated — the result is the first `n` bytes of the concatenated
stripped payloads; and the scratch buffer is sized to the next multiple of
the max packet size plus one extra packet. -/
theorem readRandom_strips_headers (maxPacket n : Nat)
    (chunks : List (Option (List Nat)))
    (hmp : 2 < maxPacket) (hn : 0 < n)
    (hsome : ∀ oc ∈ chunks, oc.isSome)
    (henough : n ≤ (totalPayload maxPacket chunks).length) :
    ReadRandom maxPacket n chunks =
      (.done ((totalPayload maxPacket chunks).take n),
        [.writeCmd (readCmd n), .readPhase]) ∧
    ((totalPayload maxPacket chunks).take n).length = n ∧
    (∀ c : List Nat, c.length ≤ 2 → specPayload maxPacket c = []) ∧
    maxPacket ∣ roundUpToMaxPacket n maxPacket ∧
    n ≤ roundUpToMaxPacket n maxPacket ∧
    roundUpToMaxPacket n maxPacket < n + maxPacket ∧
    scratchSize n maxPacket = roundUpToMaxPacket n maxPacket + maxPacket := by
  have hdm := Nat.div_add_mod n maxPacket
  have hmlt : n % maxPacket < maxPacket := Nat.mod_lt _ (by omega)
  refine ⟨?_, ?_, fun c hc => specPayload_short _ _ hmp hc, ?_, ?_, ?_, rfl⟩
  · rw [ReadRandom, if_neg (by omega)]
    rw [bulkLoop_eq maxPacket n hmp chunks 0 [] hsome (by omega) (by omega)]
    simp
  · rw [List.length_take]
    omega
  · rw [roundUpToMaxPacket]
    split_ifs with h0 hmod
    · omega
    · exact Nat.dvd_of_mod_eq_zero hmod
    · exact Dvd.intro _ (Nat.mul_comm _ _)
  · rw [roundUpToMaxPacket]
    split_ifs with h0 hmod
    · omega
    · exact le_rfl
    · rw [Nat.add_mul, one_mul, Nat.mul_comm]
      generalize maxPacket * (n / maxPacket) = t at hdm ⊢
      omega
  · rw [roundUpToMaxPacket]
    split_ifs with h0 hmod
    · omega
    · omega
    · rw [Nat.add_mul, one_mul, Nat.mul_comm]
      generalize maxPacket * (n / maxPacket) = t at hdm ⊢
      omega

/-- Witness for C2: a 3-byte read served by one 5-byte chunk
`[status, status, payload...]` at max packet size 64. -/
theorem readRandom_strips_headers_witness :
    ReadRandom 64 3 [some [9, 9, 1, 2, 3]] =
      (.done [1, 2, 3], [.writeCmd (readCmd 3), .readPhase]) := by
  have hsp : specPayload 64 [9, 9, 1, 2, 3] = [1, 2, 3] := by
    rw [specPayload_step 64 _ (by norm_num) (by norm_num)]
    rw [show List.drop 64 [9, 9, 1, 2, 3] = ([] : List Nat) from rfl, specPayload_nil]
    rfl
  have htp : totalPayload 64 [some [9, 9, 1, 2, 3]] = [1, 2, 3] := by
    simp [totalPayload, hsp]
  have h := (readRandom_strips_headers 64 3 [some [9, 9, 1, 2, 3]] (by norm_num)
    (by norm_num) (by simp) (by rw [htp]; norm_num)).1
  rw [htp] at h
  simpa using h

/-- Result of the non-Linux serial `ReadRandom` loop (src/unnamed/part_002,
lines 78-97): the deadline path breaks and returns the bytes so far with no
error; a read error returns the count so far with an error. -/
inductive SerialRr where
  | done (total : Nat) (acc : List Nat)
  | err (total : Nat) (acc : List Nat)
  deriving DecidableEq

/-- The read loop of the non-Linux serial `ReadRandom`
(src/unnamed/part_002, lines 78-97). -/
def serialRrLoop (n : Nat) : List (Option (List Nat)) → Nat → List Nat → SerialRr
  | [], total, acc => .done total acc
  | r :: rest, total, acc =>
    if total < n then
      match r with
      | none => .err total acc
      | some bs =>
        let m := min bs.length (n - total)
        serialRrLoop n rest (total + m) (acc ++ bs.take m)
    else .done total acc

/-- The non-Linux serial `ReadRandom` (src/unnamed/part_002, lines 71-98):
an empty buffer returns `(0, nil)` at once with no I/O. -/
def ReadRandomSerial (n : Nat) (reads : List (Option (List Nat))) :
    SerialRr × List IoEv :=
  if n = 0 then (.done 0 [], [])
  else (serialRrLoop n reads 0 [], [.readPhase])

/-- **C10** (`ReadRandom`, src/bbusb/device_linux.go lines 180-184 and
src/unnamed/part_002 lines 71-74): a zero-length buffer returns `(0, nil)`
immediately — no MPSSE command write, no bulk-IN read, no serial read. -/
theorem readRandom_empty_buffer (maxPacket : Nat)
    (chunks reads : List (Option (List Nat))) :
    ReadRandom maxPacket 0 chunks = (.done [], []) ∧
    ReadRandomSerial 0 reads = (.done 0 [], []) :=
  ⟨rfl, rfl⟩

/-- The four USB resources a `DeviceSession` may hold. -/
inductive Res where
  | intfR
  | cfgR
  | devR
  | ctxR
  deriving DecidableEq

/-- Presence of each resource field of a (possibly partially constructed)
`DeviceSession` (src/bbusb/device_linux.go, lines 13-21). -/
structure SessionRes where
  intf : Bool
  cfg : Bool
  dev : Bool
  ctx : Bool
  deriving DecidableEq

/-- `DeviceSession.Close` (src/bbusb/device_linux.go, lines 161-177): a nil
receiver returns immediately; otherwise each non-nil resource is released —
interface claim, then configuration, then device handle, then transport
context — each release guarded only by its own nil check. -/
def closeTrace : Option SessionRes → List Res
  | none => []
  | some s =>
    (if s.intf then [Res.intfR] else []) ++
    (if s.cfg then [Res.cfgR] else []) ++
    (if s.dev then [Res.devR] else []) ++
    (if s.ctx then [Res.ctxR] else [])

/-- **C9** (`DeviceSession.Close`, src/bbusb/device_linux.go, lines
161-177): `Close` is a total function of the session state (it never
panics, including on a nil session or nil fields); it releases exactly the
resources present, each at most once, regardless of the state of the
others; and the releases respect the order interface claim, then device
handle, then transport context (with the configuration released in
between). -/
theorem close_order_best_effort (sr : SessionRes) :
    closeTrace none = [] ∧
    (Res.intfR ∈ closeTrace (some sr) ↔ sr.intf = true) ∧
    (Res.cfgR ∈ closeTrace (some sr) ↔ sr.cfg = true) ∧
    (Res.devR ∈ closeTrace (some sr) ↔ sr.dev = true) ∧
    (Res.ctxR ∈ closeTrace (some sr) ↔ sr.ctx = true) ∧
    (∀ r, (closeTrace (some sr)).count r ≤ 1) ∧
    (closeTrace (some sr)).Sublist [Res.intfR, Res.cfgR, Res.devR, Res.ctxR] := by
  obtain ⟨i, c, d, x⟩ := sr
  cases i <;> cases c <;> cases d <;> cases x <;>
    exact ⟨rfl, by simp [closeTrace], by simp [closeTrace], by simp [closeTrace],
      by simp [closeTrace], by intro r; cases r <;> simp [closeTrace],
      by simp [closeTrace]⟩

/-- Environment for one `checkSync` call: whether the two-byte probe write
succeeds, and the outcome of each `inEp.Read` (the bytes received). -/
structure ProbeEnv where
  writeOk : Bool
  reads : List (List Nat)

/-- `checkSync` (src/bbusb/device_linux.go, lines 277-290): write
`[cmd, 0x87]` (probe plus send-immediate trailer); then up to 10 reads,
succeeding as soon as a 4-byte echo arrives whose third byte is the
acknowledgement marker `0xFA` and whose fourth byte is the probe command. -/
def checkSync (cmd : Nat) (env : ProbeEnv) : Bool :=
  env.writeOk &&
    (env.reads.take 10).any fun bs =>
      bs.length == 4 && bs.getD 2 0 == 0xFA && bs.getD 3 0 == cmd

/-- The synchronization phase of `OpenBitBabbler`
(src/bbusb/device_linux.go, lines 125-128): probe `0xAA` then `0xAB`;
retry the pair once on failure. -/
def syncOK (e1 e2 e3 e4 : ProbeEnv) : Bool :=
  (checkSync 0xAA e1 && checkSync 0xAB e2) ||
  (checkSync 0xAA e3 && checkSync 0xAB e4)

/-- What `OpenBitBabbler` does after the sync phase
(src/bbusb/device_linux.go, lines 129-132): still unsynchronized means
`s.Close()` — releasing every acquired resource — and an error with no
session returned. -/
def openSyncPhase (e1 e2 e3 e4 : ProbeEnv) : Option SessionRes × List Res :=
  if syncOK e1 e2 e3 e4 then (some ⟨true, true, true, true⟩, [])
  else (none, closeTrace (some ⟨true, true, true, true⟩))

/-- **C5** (`checkSync` lines 277-290 and `OpenBitBabbler` lines 125-132 of
src/bbusb/device_linux.go): a probe is accepted exactly when its write
succeeds and a 4-byte echo with third byte `0xFA` and fourth byte equal to
the probe command arrives within the 10-read budget; the two probe commands
`0xAA`/`0xAB` are distinct; and if the pair fails even after the one retry,
the open releases all four acquired USB resources, returns an error, and
returns no session. -/
theorem sync_probe_protocol (cmd : Nat) (env e1 e2 e3 e4 : ProbeEnv)
    (hfail : syncOK e1 e2 e3 e4 = false) :
    (checkSync cmd env = true ↔
      (env.writeOk = true ∧ ∃ bs ∈ env.reads.take 10,
        bs.length = 4 ∧ bs.getD 2 0 = 0xFA ∧ bs.getD 3 0 = cmd)) ∧
    (0xAA : Nat) ≠ 0xAB ∧
    openSyncPhase e1 e2 e3 e4 =
      (none, [Res.intfR, Res.cfgR, Res.devR, Res.ctxR]) := by
  refine ⟨?_, by norm_num, ?_⟩
  · simp only [checkSync, Bool.and_eq_true, List.any_eq_true, Bool.and_eq_true,
      beq_iff_eq]
    constructor
    · rintro ⟨hw, bs, hbs, ⟨h4, hfa⟩, hcmd⟩
      exact ⟨hw, bs, hbs, h4, hfa, hcmd⟩
    · rintro ⟨hw, bs, hbs, h4, hfa, hcmd⟩
      exact ⟨hw, bs, hbs, ⟨h4, hfa⟩, hcmd⟩
  · simp [openSyncPhase, hfail, closeTrace]

/-- Witness for C5: scripts on which every probe fails (wrong echo), so the
open fails and releases all resources. -/
theorem sync_probe_protocol_witness :
    openSyncPhase ⟨true, [[1, 2, 3, 4]]⟩ ⟨true, []⟩ ⟨false, []⟩ ⟨true, [[0, 0, 0, 0]]⟩ =
      (none, [Res.intfR, Res.cfgR, Res.devR, Res.ctxR]) :=
  (sync_probe_protocol 0xAA ⟨true, [[0, 0, 0xFA, 0xAA]]⟩ _ _ _ _ (by decide)).2.2

/-- The Go `uint` arithmetic `uint16(30000000/bitrate - 1)` of
`OpenBitBabbler` (src/bbusb/device_linux.go, line 134), including the
`bitrate == 0` default of 2.5 Mbit (lines 25-27); Go `uint` is 64-bit and
the `uint16` conversion truncates mod `2^16`. -/
def clkDivisor (bitrate : Nat) : Nat :=
  let br := if bitrate = 0 then 2500000 else bitrate
  ((((30000000 / br : Nat) : Int) - 1) % 2 ^ 64).toNat % 2 ^ 16

/-- The MPSSE configuration command of `OpenBitBabbler`
(src/bbusb/device_linux.go, lines 135-149); bytes 10 and 11 are
`byte(clkDiv & 0xFF)` and `byte(clkDiv >> 8)`. -/
def clkCmdBytes (bitrate : Nat) : List Nat :=
  [0x8A, 0x97, 0x8D, 0x80, 0x00, 0x0B, 0x82, 0x00, 0x00, 0x86,
   clkDivisor bitrate % 256, (clkDivisor bitrate >>> 8) % 256, 0x85]

/-- **C8 counterexample**: at `bitrate = 2` (which divides 30 MHz cleanly)
the programmed divisor is the `uint16` truncation 57791, not the claimed
`30000000/2 - 1 = 14999999`. -/
theorem clk_divisor_truncates :
    clkDivisor 2 ≠ 30000000 / 2 - 1 ∧ clkDivisor 2 = 57791 := by
  constructor
  · decide
  · decide

/-- **C8 amended** (`OpenBitBabbler`, src/bbusb/device_linux.go, lines
134-149): for every positive `bitrate ≤ 30000000` the programmed divisor is
`(30_000_000 / bitrate − 1) mod 2^16` with truncating integer division; it
equals `30_000_000 / bitrate − 1` exactly when that value fits in 16 bits;
and the two command bytes encode the divisor low byte first. -/
theorem clk_divisor_formula (bitrate : Nat) (h1 : 0 < bitrate)
    (h2 : bitrate ≤ 30000000) :
    clkDivisor bitrate = (30000000 / bitrate - 1) % 2 ^ 16 ∧
    (30000000 / bitrate - 1 < 2 ^ 16 →
      clkDivisor bitrate = 30000000 / bitrate - 1) ∧
    (clkCmdBytes bitrate).getD 10 0 + 256 * ((clkCmdBytes bitrate).getD 11 0) =
      clkDivisor bitrate := by
  have hbr : (if bitrate = 0 then 2500000 else bitrate) = bitrate := by
    rw [if_neg (by omega)]
  have hq1 : 1 ≤ 30000000 / bitrate := (Nat.one_le_div_iff h1).mpr h2
  have hqle : 30000000 / bitrate ≤ 30000000 := Nat.div_le_self _ _
  have hmain : clkDivisor bitrate = (30000000 / bitrate - 1) % 2 ^ 16 := by
    unfold clkDivisor
    rw [hbr]
    show ((((30000000 / bitrate : Nat) : Int) - 1) % 2 ^ 64).toNat % 2 ^ 16 =
      (30000000 / bitrate - 1) % 2 ^ 16
    have hcast : ((30000000 / bitrate : Nat) : Int) - 1 =
        ((30000000 / bitrate - 1 : Nat) : Int) := by
      rw [Nat.cast_sub hq1]
      norm_num
    rw [hcast, Int.emod_eq_of_lt (by positivity) (by
      have : ((30000000 / bitrate - 1 : Nat) : Int) ≤ 30000000 := by
        exact_mod_cast le_trans (Nat.sub_le _ _) hqle
      omega)]
    rw [Int.toNat_natCast]
  refine ⟨hmain, fun hfit => by rw [hmain, Nat.mod_eq_of_lt hfit], ?_⟩
  have hlt : clkDivisor bitrate < 2 ^ 16 := by
    rw [hmain]
    exact Nat.mod_lt _ (by norm_num)
  show clkDivisor bitrate % 256 + 256 * ((clkDivisor bitrate >>> 8) % 256) =
    clkDivisor bitrate
  rw [Nat.shiftRight_eq_div_pow]
  have hdiv : clkDivisor bitrate / 2 ^ 8 < 256 := by omega
  rw [Nat.mod_eq_of_lt hdiv]
  have := Nat.mod_add_div (clkDivisor bitrate) 256
  norm_num at this ⊢
  omega

/-- Witness for the amended C8 at the default bitrate 2.5 Mbit. -/
theorem clk_divisor_formula_witness : clkDivisor 2500000 = 11 := by
  have h := (clk_divisor_formula 2500000 (by norm_num) (by norm_num)).2.1
    (by norm_num)
  simpa using h

end Bbusb

end RngCli
